import Mathlib

/- Verification of parseit.py: a shallow embedding of the tokenizer, the token
stream, the parser-combinator engine and the grammar-introspection traversal,
with theorems checking the documented behaviour against the code.

Python strings are modelled as lists of characters (`Str`), Python integers as
`Int` where negative values matter (str.find returns -1) and as `Nat` where
they are always non-negative.  A Python value that is either `None` or a parse
result is modelled as an `Option`.  Exceptions are modelled by an explicit
error channel (`Except PyErr`); `PyErr.fuelExhausted` is not a Python
exception but the marker used by the fuelled interpreter for computations on
which the Python original would not have returned yet. -/

set_option maxRecDepth 10000

namespace Parseit

abbrev Str : Type := List Char

/-- Python `s.find(c, start)`: the least index `j ≥ start` with `s[j] = c`,
or `-1` when there is none. -/
def pyFind (s : Str) (c : Char) (start : Nat) : Int :=
  match (s.drop start).findIdx? (· == c) with
  | some j => ((start + j : Nat) : Int)
  | none => -1

/-- Python `s.rfind(c, lo, hi)`: the greatest index `j` with
`lo ≤ j < hi` (clipped to the string) and `s[j] = c`, or `-1`. -/
def pyRfind (s : Str) (c : Char) (lo hi : Nat) : Int :=
  let slice := (s.drop lo).take (hi - lo)
  match slice.reverse.findIdx? (· == c) with
  | some j => ((lo + (slice.length - 1 - j) : Nat) : Int)
  | none => -1

/-- Python `s.count(c, lo, hi)`: occurrences of `c` in the slice `s[lo:hi]`. -/
def pyCount (s : Str) (c : Char) (lo hi : Nat) : Nat :=
  ((s.drop lo).take (hi - lo)).count c

/-- Clamp one (possibly negative) Python slice index to the string length. -/
def pySliceIdx (len : Nat) (a : Int) : Nat :=
  if a < 0 then (max ((len : Int) + a) 0).toNat else (min a (len : Int)).toNat

/-- Python `s[a:b]` for integer indices, including the negative-index rule. -/
def pySlice (s : Str) (a b : Int) : Str :=
  (s.take (pySliceIdx s.length b)).drop (pySliceIdx s.length a)

/-- The `Token` record of parseit.py: the matched text (`token`), the whole
source (`string`), the offsets, and the three fields derived in
`Token.__init__`. -/
structure Token where
  token : Str
  string : Str
  start : Nat
  end_ : Nat
  line : Str
  line_number : Nat
  column_number : Int
  deriving DecidableEq

/-- Token.__init__: stores the four arguments and derives
`line = string[a:b]`, `line_number = string.count(chr(10), 0, start)` (the raw
newline count, with no increment) and `column_number = start - a + 1`.
The comparison `b = 0` (rather than `-1`) reproduces the source's
`if b == 0: b = len(string)` literally. -/
def mkToken (token string : Str) (start end_ : Nat) : Token :=
  let a : Int := pyRfind string '\n' 0 start + 1
  let b0 : Int := pyFind string '\n' end_
  let b : Int := if b0 = 0 then ((string.length : Nat) : Int) else b0
  { token := token, string := string, start := start, end_ := end_,
    line := pySlice string a b,
    line_number := pyCount string '\n' 0 start,
    column_number := (start : Int) - a + 1 }

/-- The `TokenStream` record: the materialised token list and the cursor. -/
structure TokenStream where
  token_list : List Token
  position : Nat
  deriving DecidableEq

/-- TokenStream.peek: `token_list[min(position, len(token_list)-1)]`.
`none` models the IndexError Python would raise (possible only when
`token_list` is empty, where the clamped index is `-1`). -/
def TokenStream.peek (s : TokenStream) : Option Token :=
  s.token_list.get? (min s.position (s.token_list.length - 1))

/-- TokenStream.save: returns the cursor. -/
def TokenStream.save (s : TokenStream) : Nat :=
  s.position

/-- TokenStream.load: restores the cursor. -/
def TokenStream.load (s : TokenStream) (p : Nat) : TokenStream :=
  { s with position := p }

/-- TokenStream.__next__: increments the cursor, then reads
`token_list[position-1]` (the element at the old cursor).  The first
component is `none` exactly when Python raises IndexError; the returned
stream records that the cursor was already advanced when that happens. -/
def TokenStream.next (s : TokenStream) : Option Token × TokenStream :=
  let s' : TokenStream := { s with position := s.position + 1 }
  (s.token_list.get? (s'.position - 1), s')

/- ------------------------------------------------------------------ -/
/- Lexer                                                               -/
/- ------------------------------------------------------------------ -/

inductive PyErr where
  /-- Marker of the fuelled interpreter, not a Python exception. -/
  | fuelExhausted
  /-- Python IndexError. -/
  | indexError
  /-- Python TypeError. -/
  | typeError
  /-- Python NameError. -/
  | nameError
  deriving DecidableEq

/-- Python regex `\s` restricted to its ASCII members (the blank characters
that can occur in the sources this lexer is used on). -/
def pyIsSpace (c : Char) : Bool :=
  c == ' ' || c == '\t' || c == '\n' || c == '\r' || c == '\x0b' || c == '\x0c'

/-- One pass of `Lexer.ignore_regex = (?:(?:\s+)|(?:#[^\n]*))*` viewed as a
character-by-character skipper.  The flag is `true` while inside a `#` line
comment (skipping `[^\n]*`). -/
def ignoreDropM : Bool → Str → Str
  | _, [] => []
  | false, c :: cs =>
    if pyIsSpace c then ignoreDropM false cs
    else if c == '#' then ignoreDropM true cs
    else c :: cs
  | true, c :: cs =>
    if c == '\n' then ignoreDropM false cs else ignoreDropM true cs

/-- The rest of the input after `ignore_regex.match(string, i).end()`:
the maximal run of whitespace and `#` line comments is removed. -/
def ignoreDrop (s : Str) : Str :=
  ignoreDropM false s

/-- Lexer.__call__ composed with Lexer._lex, as written in the source.
After skipping ignorable text, the loop body of `_lex` either reaches the
end of the input and evaluates `Token(eof-type, string, text, start, end)` —
five arguments against the four-parameter `Token.__init__`, a TypeError —
or iterates `for type_, regex in token_types.items()` where `token_types`
is an unbound local name (the source forgot `self.`), a NameError.  Both
exceptions surface when `TokenStream.__init__` materialises the generator,
so the call never produces a token list. -/
def lexRun (s : Str) : Except PyErr (List Token) :=
  if (ignoreDrop s).isEmpty then .error .typeError else .error .nameError

/- The token-class patterns compiled in Lexer.__init__ (which itself runs
without error).  Each is embedded as an anchored matcher at the start of a
suffix `u` of the input, returning the length of the text the Python regex
engine would match there. -/

/-- Backtracking search for `\d+(?!\.)` after the greedy `\d+` has taken `k`
characters: accept the longest `k ≥ 1` whose following character is not a
dot, exactly as the regex engine backtracks. -/
def intBacktrack (u : Str) : Nat → Option Nat
  | 0 => none
  | k + 1 => if u.get? (k + 1) = some '.' then intBacktrack u k else some (k + 1)

/-- The `int` pattern `\d+(?!\.)` matched at the start of `u`. -/
def intMatch (u : Str) : Option Nat :=
  intBacktrack u (u.takeWhile Char.isDigit).length

/-- Backtracking search for `\d+\.\d*`: the greedy `\d+` retreats until the
next character is a dot. -/
def floatBacktrack (u : Str) : Nat → Option Nat
  | 0 => none
  | k + 1 =>
    if u.get? (k + 1) = some '.' then
      some ((k + 1) + 1 + ((u.drop (k + 2)).takeWhile Char.isDigit).length)
    else floatBacktrack u k

/-- The `float` pattern `\d+\.\d*` matched at the start of `u`. -/
def floatMatch (u : Str) : Option Nat :=
  floatBacktrack u (u.takeWhile Char.isDigit).length

/-- Python string comparison `x < y`: lexicographic by code point, with a
proper initial segment ordered before its extensions. -/
def lexLt : Str → Str → Bool
  | [], [] => false
  | [], _ :: _ => true
  | _ :: _, [] => false
  | a :: as, b :: bs => if a < b then true else if a = b then lexLt as bs else false

/-- One insertion step of an ascending insertion sort by `lexLt`. -/
def insert1 (x : Str) : List Str → List Str
  | [] => [x]
  | y :: ys => if lexLt y x then y :: insert1 x ys else x :: y :: ys

/-- Python `sorted(symbols)`: the ascending lexicographic reordering (for a
strict total order the sorted list is unique, so insertion sort embeds it). -/
def pySorted (l : List Str) : List Str :=
  l.foldr insert1 []

/-- The alternative order of the `symbol` pattern in Lexer.__init__:
`reversed(sorted(symbols))`, i.e. descending lexicographic order. -/
def symbolOrder (symbols : List Str) : List Str :=
  (pySorted symbols).reverse

/-- A regex-escaped literal alternative matches at position `i` of `s`
exactly when the next `sym.length` characters equal `sym`. -/
def litMatchesAt (sym : Str) (s : Str) (i : Nat) : Bool :=
  decide (sym = (s.drop i).take sym.length)

/-- The compiled `symbol` alternation applied at position `i`: the regex
engine returns the first alternative, in `symbolOrder`, that matches. -/
def symbolFirstMatch (symbols : List Str) (s : Str) (i : Nat) : Option Str :=
  (symbolOrder symbols).find? (fun sym => litMatchesAt sym s i)

/- ------------------------------------------------------------------ -/
/- Grammar introspection (Parser.descendants / Parser.parse_string)    -/
/- ------------------------------------------------------------------ -/

/-- What a parser node contributes to introspection: `Keyword` and `Symbol`
nodes carry the literal recorded in their constructor, every other node
carries nothing. -/
inductive GKind where
  | keywordNode (lit : Str)
  | symbolNode (lit : Str)
  | other
  deriving DecidableEq

/-- A parser node as seen by the traversal: its kind and the identities of
its declared children.  Identity is the index into the `Graph` arena, which
models Python object identity (the `in`/`add` of a Python `set` of parser
objects) and permits the cyclic graphs built with `Proxy`. -/
structure GNode where
  kind : GKind
  children : List Nat
  deriving DecidableEq

abbrev Graph : Type := List GNode

/-- Children of node `self` in the arena. -/
def childrenOf (g : Graph) (self : Nat) : List Nat :=
  (g.getD self ⟨.other, []⟩).children

/-- Parser.descendants as written in the source: the visited set is threaded
through, and the loop body is `for parser in self.children:
self.descendants(seen)` — it recurses on `self`, not on `parser`, so each
inner call finds `self` already in `seen` and returns at once.  The fuel
only bounds the recursion depth for Lean; the Python original terminates on
every input for the same reason the inner calls are no-ops. -/
def descendantsF : Nat → Graph → Nat → List Nat → List Nat
  | 0, _, _, seen => seen
  | fuel + 1, g, self, seen =>
    if self ∈ seen then seen
    else
      (childrenOf g self).foldl (fun acc _ => descendantsF fuel g self acc)
        (self :: seen)

/-- The keyword-literal harvest of Parser.parse_string: the literals of the
`Keyword` nodes among the visited set. -/
def harvestKeywords (g : Graph) (visited : List Nat) : List Str :=
  visited.foldr
    (fun id acc =>
      match (g.getD id ⟨.other, []⟩).kind with
      | .keywordNode lit => lit :: acc
      | _ => acc) []

/-- The symbol-literal harvest of Parser.parse_string. -/
def harvestSymbols (g : Graph) (visited : List Nat) : List Str :=
  visited.foldr
    (fun id acc =>
      match (g.getD id ⟨.other, []⟩).kind with
      | .symbolNode lit => lit :: acc
      | _ => acc) []

/-- The set of node identities actually reachable from `root` through the
declared children (what the spec says `descendants` computes), defined as a
plain bounded breadth search; used to state what the traversal misses. -/
def reachableF : Nat → Graph → List Nat → List Nat → List Nat
  | 0, _, _, seen => seen
  | _, _, [], seen => seen
  | fuel + 1, g, id :: frontier, seen =>
    if id ∈ seen then reachableF fuel g frontier seen
    else reachableF fuel g (frontier ++ childrenOf g id) (id :: seen)

/- ------------------------------------------------------------------ -/
/- Parser combinator engine                                            -/
/- ------------------------------------------------------------------ -/

/-- A Python parse result: a consumed token, or the list built by `And` and
`Repeat`.  (`None` is represented outside, by `Option Value`.) -/
inductive Value where
  | tok (t : Token)
  | list (vs : List Value)

/-- The combinator nodes of parseit.py.  `tokenSatisfying` carries the
condition closure (TokenMatching, and with it Symbol and Keyword, pass
`lambda t: t.token == token`); `action` carries the arbitrary Python
callable of `Action`, a function on a value-or-None; `proxy` carries the
assignable single child slot. -/
inductive PNode where
  | tokenSatisfying (cond : Token → Bool)
  | action (child : PNode) (f : Option Value → Option Value)
  | proxy (child : Option PNode)
  | orP (children : List PNode)
  | andP (children : List PNode)
  | repeatP (child : PNode) (at_least : Nat) (at_most : Option Nat)

/-- TokenMatching (hence Symbol and Keyword): match one token whose text
equals the literal. -/
def tokenMatching (lit : Str) : PNode :=
  .tokenSatisfying (fun t => t.token == lit)

/-- The tail of Parser.__call__ around a `_parse` outcome: with the cursor
captured in `save` before the attempt, a `None` result reloads the saved
cursor; any other outcome passes through. -/
def wrapCall (save : Nat) :
    Except PyErr (Option Value × TokenStream) →
      Except PyErr (Option Value × TokenStream)
  | .ok (none, s1) => .ok (none, { s1 with position := save })
  | other => other

/-- The `while` loop of Repeat._parse, with the child invocation abstracted
as `runC`.  The loop guard is the source's
`at_most is None or len(results) <= at_most`; when the guard fails the
function falls off the loop and returns `None`.  Each iteration costs one
unit of fuel. -/
def repLoopF (runC : TokenStream → Except PyErr (Option Value × TokenStream)) :
    Nat → Nat → Option Nat → TokenStream → List Value →
      Except PyErr (Option Value × TokenStream)
  | 0, _, _, _, _ => .error .fuelExhausted
  | k + 1, at_least, at_most, s, results =>
    if (match at_most with | none => true | some m => decide (results.length ≤ m)) then
      match runC s with
      | .error e => .error e
      | .ok (none, s') =>
        .ok (if results.length ≥ at_least then some (.list results) else none, s')
      | .ok (some v, s') => repLoopF runC k at_least at_most s' (results ++ [v])
    else .ok (none, s)

/-- Parser.__call__ for every node: capture the cursor, run the node's
`_parse`, and on a `None` result reload the captured cursor.  The `_parse`
bodies are embedded per constructor:
TokenSatisfying peeks, tests the condition and consumes via `next`
(IndexError can surface when `next` reads past the end);
Action applies its callable to the child's `__call__` result (also when that
result is `None`); Proxy delegates to its child, a TypeError when the slot is
still `None`; Or returns the first non-`None` child result; And collects all
child results, failing on the first `None`; Repeat runs the loop above.
Fuel decreases on every nested invocation, so a result other than
`.error .fuelExhausted` is the value the Python call returns. -/
def run : Nat → PNode → TokenStream → Except PyErr (Option Value × TokenStream)
  | 0, _, _ => .error .fuelExhausted
  | fuel + 1, p, s =>
    wrapCall (TokenStream.save s)
      (match p with
       | .tokenSatisfying cond =>
         match TokenStream.peek s with
         | none => .error .indexError
         | some t =>
           if cond t then
             match TokenStream.next s with
             | (some tk, s') => .ok (some (.tok tk), s')
             | (none, _) => .error .indexError
           else .ok (none, s)
       | .action c f =>
         match run fuel c s with
         | .error e => .error e
         | .ok (r, s') => .ok (f r, s')
       | .proxy none => .error .typeError
       | .proxy (some c) => run fuel c s
       | .orP cs =>
         cs.foldl
           (fun (acc : Except PyErr (Option Value × TokenStream)) c =>
             match acc with
             | .error e => .error e
             | .ok (some v, s') => .ok (some v, s')
             | .ok (none, s') => run fuel c s')
           (.ok (none, s))
       | .andP cs =>
         match cs.foldl
             (fun (acc : Except PyErr (Option (List Value) × TokenStream)) c =>
               match acc with
               | .error e => .error e
               | .ok (none, s') => .ok (none, s')
               | .ok (some results, s') =>
                 match run fuel c s' with
                 | .error e => .error e
                 | .ok (none, s'') => .ok (none, s'')
                 | .ok (some v, s'') => .ok (some (results ++ [v]), s''))
             (.ok (some ([] : List Value), s)) with
         | .error e => .error e
         | .ok (none, s') => .ok ((none : Option Value), s')
         | .ok (some results, s') => .ok (some (.list results), s')
       | .repeatP c at_least at_most =>
         repLoopF (run fuel c) fuel at_least at_most s [])

/-- The ZeroOrMore convenience wrapper: `Repeat(parser)`. -/
def ZeroOrMore (p : PNode) : PNode :=
  .repeatP p 0 none

/-- The OneOrMore convenience wrapper: `Repeat(parser, 1)`. -/
def OneOrMore (p : PNode) : PNode :=
  .repeatP p 1 none

/-- The AtMost convenience wrapper: `Repeat(parser, 0, n)`. -/
def AtMost (p : PNode) (n : Nat) : PNode :=
  .repeatP p 0 (some n)

/-- The OnSuccess wrapper: apply the action only to a non-`None` result. -/
def OnSuccess (p : PNode) (action : Option Value → Option Value) : PNode :=
  .action p (fun result => match result with
    | some v => action (some v)
    | none => none)

/-- The OnFailure wrapper: apply the action only to a `None` result. -/
def OnFailure (p : PNode) (action : Option Value → Option Value) : PNode :=
  .action p (fun result => match result with
    | some v => some v
    | none => action none)

/- ------------------------------------------------------------------ -/
/- Spec-side definitions and concrete instances                        -/
/- ------------------------------------------------------------------ -/

/-- The quantity named by the spec for the line number: the number of
newline characters strictly before `start` in the source. -/
def specNewlinesBefore (s : Str) (start : Nat) : Nat :=
  ((s.take start).filter (fun c => c == '\n')).length

/-- Tokens of the two-character source `ac`. -/
def tokA : Token := mkToken ['a'] ['a', 'c'] 0 1

def tokC : Token := mkToken ['c'] ['a', 'c'] 1 2

def tokEofAC : Token := mkToken [] ['a', 'c'] 2 2

def tlAC : List Token := [tokA, tokC, tokEofAC]

/-- A sequence whose second member cannot match the `ac` token list. -/
def andAB : PNode := .andP [tokenMatching ['a'], tokenMatching ['b']]

/-- A transformation callable that returns `None` for every input. -/
def fNone : Option Value → Option Value := fun _ => none

/-- Tokens of the two-comma source. -/
def tokComma1 : Token := mkToken [','] [',', ','] 0 1

def tokComma2 : Token := mkToken [','] [',', ','] 1 2

def tokEofCC : Token := mkToken [] [',', ','] 2 2

def tlCommas : List Token := [tokComma1, tokComma2, tokEofCC]

def tlOneComma : List Token := [tokComma1, tokEofCC]

/-- A two-node parser graph: the root (node 0) has the keyword matcher for
`if` (node 1) as its only declared child. -/
def gIfRoot : Graph := [⟨.other, [1]⟩, ⟨.keywordNode ['i', 'f'], []⟩]

/- ------------------------------------------------------------------ -/
/- Theorems                                                            -/
/- ------------------------------------------------------------------ -/

/-- A `None` outcome of the `__call__` wrapper always carries the cursor
captured before the attempt. -/
theorem wrapCall_none_position (save : Nat)
    (x : Except PyErr (Option Value × TokenStream)) (s' : TokenStream)
    (h : wrapCall save x = .ok (none, s')) : s'.position = save := by
  cases x with
  | error e => simp [wrapCall] at h
  | ok pr =>
    obtain ⟨r, s1⟩ := pr
    cases r with
    | none =>
      simp only [wrapCall, Except.ok.injEq, Prod.mk.injEq] at h
      rw [← h.2]
    | some v => simp [wrapCall] at h

/-- C1: whenever the public entry point `Parser.__call__` (embedded as
`run`) returns the no-match outcome for any parser node, at any nesting
depth, the stream's cursor after the call equals its cursor before the
call. -/
theorem call_rolls_back_on_no_match (fuel : Nat) (p : PNode) (s s' : TokenStream)
    (h : run fuel p s = .ok (none, s')) : s'.position = s.position := by
  cases fuel with
  | zero => simp [run] at h
  | succ fuel =>
    simp only [run] at h
    exact wrapCall_none_position (TokenStream.save s) _ s' h

/-- Witness for C1: a sequence whose second child fails leaves the stream
at the pre-sequence position 0, even though its first child consumed a
token before the failure. -/
theorem call_rolls_back_on_no_match_witness :
    run 10 andAB ⟨tlAC, 0⟩ = .ok (none, ⟨tlAC, 0⟩) ∧
      (⟨tlAC, 0⟩ : TokenStream).position = (⟨tlAC, 0⟩ : TokenStream).position :=
  ⟨rfl, call_rolls_back_on_no_match 10 andAB ⟨tlAC, 0⟩ ⟨tlAC, 0⟩ rfl⟩

/-- C10: when an `Action` node's callable returns `None` on the value of a
child that succeeded, the wrapping invocation returns the no-match outcome
and reloads the cursor held before the child consumed anything. -/
theorem action_none_result_is_no_match (fuel : Nat) (c : PNode)
    (f : Option Value → Option Value) (s s1 : TokenStream) (v : Value)
    (hc : run fuel c s = .ok (some v, s1)) (hf : f (some v) = none) :
    run (fuel + 1) (.action c f) s = .ok (none, ⟨s1.token_list, s.position⟩) := by
  simp only [run, hc, hf, wrapCall, TokenStream.save]

/-- Witness for C10: a constant-`None` action over a token matcher that
succeeds after consuming one token; the wrapped call reports no-match with
the cursor back at 0. -/
theorem action_none_result_is_no_match_witness :
    run 6 (.action (tokenMatching ['a']) fNone) ⟨tlAC, 0⟩ =
      .ok (none, ⟨tlAC, 0⟩) :=
  action_none_result_is_no_match 5 (tokenMatching ['a']) fNone ⟨tlAC, 0⟩
    ⟨tlAC, 1⟩ (.tok tokA) rfl rfl

/-- C3 (code behaviour at the failing input): `AtMost(p, 1)` against a
stream holding two matching tokens returns the no-match outcome — the loop
guard `len(results) <= at_most` lets a second match be collected and the
loop then falls through to an implicit `return None` — whereas against a
stream holding one matching token it succeeds with the singleton list,
leaving the cursor after the match. -/
theorem at_most_no_match_when_more_would_succeed :
    run 20 (AtMost (tokenMatching [',']) 1) ⟨tlCommas, 0⟩ =
        .ok (none, ⟨tlCommas, 0⟩) ∧
      run 20 (AtMost (tokenMatching [',']) 1) ⟨tlOneComma, 0⟩ =
        .ok (some (.list [.tok tokComma1]), ⟨tlOneComma, 1⟩) :=
  ⟨rfl, rfl⟩

/-- C4 (code behaviour at the failing input): `Lexer._lex` raises on every
input — NameError (the unbound `token_types`) as soon as a token would have
to be matched, TypeError (five arguments passed to the four-parameter
`Token.__init__`) when only the end-of-input token remains to be emitted —
so no token is ever produced. -/
theorem lex_raises_on_every_input :
    lexRun ['1', '2'] = .error .nameError ∧
      lexRun [] = .error .typeError ∧
      lexRun [' ', '#', 'h', 'i'] = .error .typeError :=
  ⟨rfl, rfl, rfl⟩

/-- C6 (code behaviour at the failing input): at the start of `12.5` the
`int` pattern backtracks past the lookahead and matches the text `1`
(length 1), so the integer class does match digits followed by a decimal
point; the claimed behaviour (integer fails, float covers the literal)
holds only when a single digit precedes the point, as in `2.5`. -/
theorem int_pattern_matches_digits_before_dot :
    intMatch ['1', '2', '.', '5'] = some 1 ∧
      floatMatch ['1', '2', '.', '5'] = some 4 ∧
      intMatch ['2', '.', '5'] = none ∧
      floatMatch ['2', '.', '5'] = some 3 :=
  ⟨rfl, rfl, rfl, rfl⟩

/-- C2 (code behaviour at the failing input): on a root whose only declared
child is the keyword matcher for `if`, the traversal visits the root alone
(the loop body recurses on `self`, which is already in the visited set), so
the keyword harvest is empty although node 1 is reachable and carries the
literal. -/
theorem descendants_visits_only_the_root :
    descendantsF 100 gIfRoot 0 [] = [0] ∧
      harvestKeywords gIfRoot (descendantsF 100 gIfRoot 0 []) = [] ∧
      reachableF 100 gIfRoot [0] [] = [1, 0] ∧
      (gIfRoot.getD 1 ⟨.other, []⟩).kind = .keywordNode ['i', 'f'] :=
  ⟨rfl, rfl, rfl, rfl⟩

/-- C7 (counterexample): a token on the first line of its source stores
line number 0, not the 1-based value (one plus the zero newlines before its
start) the claim requires. -/
theorem line_number_not_one_based :
    (mkToken ['x'] ['x'] 0 1).line_number ≠ 1 + specNewlinesBefore ['x'] 0 := by
  decide

/-- C7 (amended): the stored line number is 0-based — for every constructed
token it equals exactly the number of newline characters strictly before
`start` in the source, with no increment (a token on the first line has
line number 0). -/
theorem line_number_counts_newlines (token string : Str) (start end_ : Nat) :
    (mkToken token string start end_).line_number = specNewlinesBefore string start := by
  simp [mkToken, pyCount, specNewlinesBefore, List.count_eq_countP,
    List.countP_eq_length_filter]

/-- The element at index `length - 1` of a non-empty list is its last. -/
theorem get?_at_length_pred {α : Type} (t : α) (rest : List α) :
    (t :: rest).get? rest.length =
      some ((t :: rest).getLast (List.cons_ne_nil t rest)) := by
  induction rest generalizing t with
  | nil => rfl
  | cons r rs ih =>
    show (r :: rs).get? rs.length = _
    rw [ih r, List.getLast_cons (List.cons_ne_nil r rs)]

/-- C8: on a non-empty token list (the tokenizer's output always ends with
the end-of-input sentinel, its last element), `peek` with the cursor at or
beyond the last index returns that last token — the same value however
often it is repeated, since `peek` leaves the stream untouched — and `peek`
never reads out of range at any cursor value. -/
theorem peek_past_end_returns_sentinel (t : Token) (rest : List Token) :
    (∀ k : Nat,
        TokenStream.peek ⟨t :: rest, rest.length + k⟩ =
          some ((t :: rest).getLast (List.cons_ne_nil t rest))) ∧
      (∀ p : Nat, (TokenStream.peek ⟨t :: rest, p⟩).isSome = true) := by
  constructor
  · intro k
    have hmin : min (rest.length + k) ((t :: rest).length - 1) = rest.length := by
      simp [Nat.succ_sub_one, Nat.min_eq_right (Nat.le_add_right _ _)]
    simp only [TokenStream.peek, hmin]
    exact get?_at_length_pred t rest
  · intro p
    have hle : min p ((t :: rest).length - 1) ≤ (t :: rest).length - 1 :=
      Nat.min_le_right _ _
    have hlt : min p ((t :: rest).length - 1) < (t :: rest).length := by
      simp only [List.length_cons] at hle ⊢
      omega
    simp [TokenStream.peek, List.get?_eq_get hlt]

/-- C9: `__next__` is not clamped — with the cursor at or past the number
of stored tokens (`length + k`), the read at the old cursor fails with
IndexError (the `none` component) and the stream the exception leaves
behind has the cursor already advanced by one. -/
theorem next_past_end_raises_after_advancing (tl : List Token) (k : Nat) :
    (TokenStream.next ⟨tl, tl.length + k⟩).1 = none ∧
      (TokenStream.next ⟨tl, tl.length + k⟩).2.position = tl.length + k + 1 := by
  constructor
  · simp only [TokenStream.next, Nat.add_sub_cancel]
    exact List.get?_eq_none.mpr (Nat.le_add_right _ _)
  · rfl

/-- Python string comparison is irreflexive. -/
theorem lexLt_irrefl (l : Str) : lexLt l l = false := by
  induction l with
  | nil => rfl
  | cons a as ih => simp [lexLt, lt_irrefl, ih]

/-- Python string comparison is asymmetric. -/
theorem lexLt_asymm : ∀ {x y : Str}, lexLt x y = true → lexLt y x = false := by
  intro x
  induction x with
  | nil =>
    intro y h
    cases y with
    | nil => simp [lexLt] at h
    | cons b bs => rfl
  | cons a as ih =>
    intro y h
    cases y with
    | nil => simp [lexLt] at h
    | cons b bs =>
      by_cases hab : a < b
      · simp [lexLt, asymm hab, ne_of_gt hab]
      · by_cases heq : a = b
        · subst heq
          simp only [lexLt, lt_irrefl, if_false, if_pos rfl] at h ⊢
          exact ih h
        · simp [lexLt, hab, heq] at h

/-- Python string comparison is transitive. -/
theorem lexLt_trans :
    ∀ {x y z : Str}, lexLt x y = true → lexLt y z = true → lexLt x z = true := by
  intro x
  induction x with
  | nil =>
    intro y z h1 h2
    cases z with
    | nil => cases y <;> simp [lexLt] at h2
    | cons c cs => rfl
  | cons a as ih =>
    intro y z h1 h2
    cases y with
    | nil => simp [lexLt] at h1
    | cons b bs =>
      cases z with
      | nil => simp [lexLt] at h2
      | cons c cs =>
        by_cases hab : a < b
        · by_cases hbc : b < c
          · simp [lexLt, lt_trans hab hbc]
          · by_cases hbc2 : b = c
            · subst hbc2; simp [lexLt, hab]
            · simp [lexLt, hbc, hbc2] at h2
        · by_cases hab2 : a = b
          · subst hab2
            by_cases hbc : a < c
            · simp [lexLt, hbc]
            · by_cases hbc2 : a = c
              · subst hbc2
                simp only [lexLt, lt_irrefl, if_false, if_pos rfl] at h1 h2 ⊢
                exact ih h1 h2
              · simp [lexLt, hbc, hbc2] at h2
          · simp [lexLt, hab, hab2] at h1

/-- Two strings neither of which compares below the other are equal. -/
theorem lexLt_connex :
    ∀ {x y : Str}, lexLt x y = false → lexLt y x = false → x = y := by
  intro x
  induction x with
  | nil =>
    intro y h1 _
    cases y with
    | nil => rfl
    | cons b bs => simp [lexLt] at h1
  | cons a as ih =>
    intro y h1 h2
    cases y with
    | nil => simp [lexLt] at h2
    | cons b bs =>
      rcases lt_trichotomy a b with hab | hab | hab
      · simp [lexLt, hab] at h1
      · subst hab
        simp only [lexLt, lt_irrefl, if_false, if_pos rfl] at h1 h2
        rw [ih h1 h2]
      · simp [lexLt, hab] at h2

/-- The complement of Python string comparison is transitive. -/
theorem lexLt_false_trans {x y z : Str} (h1 : lexLt x y = false)
    (h2 : lexLt y z = false) : lexLt x z = false := by
  cases hxz : lexLt x z with
  | false => rfl
  | true =>
    cases hzy : lexLt z y with
    | true => rw [lexLt_trans hxz hzy] at h1; exact h1
    | false =>
      have hyz : y = z := lexLt_connex h2 hzy
      subst hyz
      rw [hxz] at h1
      exact h1

/-- A strict initial segment compares below the whole string. -/
theorem lexLt_take (t : Str) : ∀ k, k < t.length → lexLt (t.take k) t = true := by
  induction t with
  | nil => intro k hk; simp at hk
  | cons c cs ih =>
    intro k hk
    cases k with
    | zero => rfl
    | succ k =>
      simp only [List.take_succ_cons, lexLt, lt_irrefl, if_false, if_pos rfl]
      exact ih k (by simp only [List.length_cons] at hk; omega)

/-- Membership after one insertion step. -/
theorem mem_insert1 {x z : Str} :
    ∀ {l : List Str}, z ∈ insert1 x l → z = x ∨ z ∈ l := by
  intro l
  induction l with
  | nil =>
    intro h
    simp only [insert1, List.mem_singleton] at h
    exact Or.inl h
  | cons y ys ih =>
    intro h
    by_cases hc : lexLt y x = true
    · rw [insert1, if_pos hc] at h
      rcases List.mem_cons.mp h with rfl | h2
      · exact Or.inr (List.mem_cons_self _ _)
      · rcases ih h2 with h3 | h3
        · exact Or.inl h3
        · exact Or.inr (List.mem_cons_of_mem _ h3)
    · rw [insert1, if_neg hc] at h
      rcases List.mem_cons.mp h with rfl | h2
      · exact Or.inl rfl
      · exact Or.inr h2

/-- The inserted element is a member. -/
theorem mem_insert1_self (x : Str) : ∀ (l : List Str), x ∈ insert1 x l := by
  intro l
  induction l with
  | nil => simp [insert1]
  | cons y ys ih =>
    by_cases hc : lexLt y x = true
    · rw [insert1, if_pos hc]
      exact List.mem_cons_of_mem _ ih
    · rw [insert1, if_neg hc]
      exact List.mem_cons_self _ _

/-- Old members survive one insertion step. -/
theorem mem_insert1_of_mem {z : Str} (x : Str) :
    ∀ {l : List Str}, z ∈ l → z ∈ insert1 x l := by
  intro l
  induction l with
  | nil => intro h; cases h
  | cons y ys ih =>
    intro h
    by_cases hc : lexLt y x = true
    · rw [insert1, if_pos hc]
      rcases List.mem_cons.mp h with rfl | h2
      · exact List.mem_cons_self _ _
      · exact List.mem_cons_of_mem _ (ih h2)
    · rw [insert1, if_neg hc]
      exact List.mem_cons_of_mem _ h

/-- Members of a list are members of its sorted reordering. -/
theorem mem_pySorted_of_mem {z : Str} :
    ∀ {l : List Str}, z ∈ l → z ∈ pySorted l := by
  intro l
  induction l with
  | nil => intro h; cases h
  | cons y ys ih =>
    intro h
    show z ∈ insert1 y (pySorted ys)
    rcases List.mem_cons.mp h with rfl | h2
    · exact mem_insert1_self _ _
    · exact mem_insert1_of_mem _ (ih h2)

/-- Insertion preserves the ascending-sorted invariant. -/
theorem pairwise_insert1 {x : Str} :
    ∀ {l : List Str}, l.Pairwise (fun a b => lexLt b a = false) →
      (insert1 x l).Pairwise (fun a b => lexLt b a = false) := by
  intro l
  induction l with
  | nil => intro _; simp [insert1]
  | cons y ys ih =>
    intro hp
    rcases List.pairwise_cons.mp hp with ⟨hy, hys⟩
    by_cases hc : lexLt y x = true
    · rw [insert1, if_pos hc]
      refine List.pairwise_cons.mpr ⟨?_, ih hys⟩
      intro b hb
      rcases mem_insert1 hb with rfl | hb2
      · exact lexLt_asymm hc
      · exact hy b hb2
    · rw [insert1, if_neg hc]
      refine List.pairwise_cons.mpr ⟨?_, hp⟩
      intro b hb
      have hyx : lexLt y x = false := by
        cases h : lexLt y x with
        | false => rfl
        | true => exact absurd h hc
      rcases List.mem_cons.mp hb with rfl | hb2
      · exact hyx
      · exact lexLt_false_trans (hy b hb2) hyx

/-- `pySorted` is ascending: no later element compares below an earlier
one. -/
theorem pairwise_pySorted :
    ∀ (l : List Str), (pySorted l).Pairwise (fun a b => lexLt b a = false) := by
  intro l
  induction l with
  | nil => simp [pySorted]
  | cons y ys ih => exact pairwise_insert1 ih

/-- `symbolOrder` is descending: no earlier element compares below a later
one. -/
theorem pairwise_symbolOrder (l : List Str) :
    (symbolOrder l).Pairwise (fun a b => lexLt a b = false) := by
  unfold symbolOrder
  rw [List.pairwise_reverse]
  exact pairwise_pySorted l

/-- Members survive the ordering used for the symbol alternation. -/
theorem mem_symbolOrder {t : Str} {l : List Str} (h : t ∈ l) :
    t ∈ symbolOrder l := by
  unfold symbolOrder
  rw [List.mem_reverse]
  exact mem_pySorted_of_mem h

/-- In a pairwise-related list, anything the first match skipped over is
either the match itself or related to it. -/
theorem find?_first_of_pairwise {R : Str → Str → Prop} :
    ∀ {l : List Str} {p : Str → Bool} {r : Str}, l.Pairwise R →
      l.find? p = some r → ∀ t ∈ l, p t = true → t = r ∨ R r t := by
  intro l
  induction l with
  | nil => intro p r _ hf; simp [List.find?] at hf
  | cons x xs ih =>
    intro p r hp hf t ht hpt
    rcases List.pairwise_cons.mp hp with ⟨hx, hxs⟩
    by_cases hpx : p x = true
    · rw [List.find?_cons_of_pos _ hpx] at hf
      have hrx : x = r := by injection hf
      rcases List.mem_cons.mp ht with rfl | ht2
      · exact Or.inl hrx
      · rw [← hrx]
        exact Or.inr (hx t ht2)
    · rw [List.find?_cons_of_neg _ (by simpa using hpx)] at hf
      rcases List.mem_cons.mp ht with rfl | ht2
      · rw [hpt] at hpx; exact absurd rfl hpx
      · exact ih hxs hf t ht2 hpt

/-- C5 (amended): the symbol alternation built in Lexer.__init__ prefers
the longest symbol that matches at a position — whenever the compiled
first-match alternation over `reversed(sorted(symbols))` answers `res` at
position `i`, no symbol of the set matching at `i` is longer than `res`.
(The order is descending lexicographic; symbols matching at the same
position are initial segments of one another, and descending lexicographic
order places a string before its strict initial segments.) -/
theorem symbol_longest_match (symbols : List Str) (s : Str) (i : Nat)
    (res t : Str) (hres : symbolFirstMatch symbols s i = some res)
    (ht : t ∈ symbols) (hm : litMatchesAt t s i = true) :
    t.length ≤ res.length := by
  by_contra hlen
  push_neg at hlen
  have hres' : (symbolOrder symbols).find? (fun sym => litMatchesAt sym s i) =
      some res := hres
  have hresMatch : litMatchesAt res s i = true := by
    have h2 := List.find?_some hres'
    exact h2
  have htOrd : t ∈ symbolOrder symbols := mem_symbolOrder ht
  have hfirst :=
    find?_first_of_pairwise (pairwise_symbolOrder symbols) hres' t htOrd hm
  rcases hfirst with rfl | hRt
  · omega
  · have hres3 : res = (s.drop i).take res.length :=
      of_decide_eq_true hresMatch
    have hm3 : t = (s.drop i).take t.length := of_decide_eq_true hm
    have hcommon : res = t.take res.length := by
      calc res = (s.drop i).take res.length := hres3
        _ = (s.drop i).take (min res.length t.length) := by
            rw [Nat.min_eq_left (Nat.le_of_lt hlen)]
        _ = ((s.drop i).take t.length).take res.length := (List.take_take _ _ _).symm
        _ = t.take res.length := by rw [← hm3]
    have htrue : lexLt res t = true := by
      rw [hcommon]
      exact lexLt_take t res.length hlen
    rw [htrue] at hRt
    exact Bool.noConfusion hRt

/-- Witness for C5: with the overlapping symbols `=` and `==`, the compiled
alternation at the start of the text `==` answers the two-character symbol,
and the theorem instantiates to `length "=" ≤ length "=="`. -/
theorem symbol_longest_match_witness :
    symbolFirstMatch [['='], ['=', '=']] ['=', '='] 0 = some ['=', '='] ∧
      (['='] : Str).length ≤ (['=', '='] : Str).length :=
  ⟨rfl,
    symbol_longest_match [['='], ['=', '=']] ['=', '='] 0 ['=', '='] ['=']
      rfl (by simp) (by decide)⟩

/-- C5 (counterexample): the claim's parenthetical is false — the
alternatives are not ordered by descending length.  `reversed(sorted(.))`
orders the symbol set `{aa, b}` as `[b, aa]`, putting the one-character
symbol before the two-character one. -/
theorem symbol_order_not_by_length :
    symbolOrder [['a', 'a'], ['b']] = [['b'], ['a', 'a']] ∧
      (['b'] : Str).length < (['a', 'a'] : Str).length :=
  ⟨rfl, by decide⟩

end Parseit
